import Mathlib

/-!
Verification of the tasktronaut process-compilation and task-execution core.

The definitions below are a shallow embedding of the Python sources:
`src/tasktronaut/process.py` (SequentialProcess.enqueue,
ConcurrentProcess.enqueue), `src/tasktronaut/backend.py`
(Backend.perform_task) and `src/tasktronaut/builder.py` (Builder).
Python dicts of keyword arguments are association lists; job handles
returned by the backend are natural-number tokens allocated by a counter;
backend enqueue calls are recorded in an ordered trace.
-/

namespace Tasktronaut

/-- A Python value stored in a keyword-argument bag (only the shapes the
claims exercise: ints and strings). -/
inductive PyVal where
  | int (n : Int)
  | str (s : String)
deriving DecidableEq, Repr

/-- A keyword-argument bag: a Python dict as an insertion-ordered
association list. -/
abbrev Bag := List (String × PyVal)

/-- Python truthiness of an `Optional[str]`: `None` and the empty string
are falsy, every other string is truthy. -/
def pyTruthy : Option String → Bool
  | none => false
  | some s => s ≠ ""

/-- Python `a or b` on `Optional[str]` values: yields `a` when `a` is
truthy, else `b`. -/
def pyOr (a b : Option String) : Option String :=
  if pyTruthy a then a else b

/-! ## Process compilation (`process.py`)

`SequentialProcess.enqueue` / `ConcurrentProcess.enqueue` derive a
`base_kwargs` payload (identifier, module name, qualified class name of
the definition) and emit backend enqueue calls.  We record each call in a
trace; each enqueue call returns a fresh job handle drawn from a counter.
-/

/-- The `base_kwargs` payload shared by every enqueue call of one node:
identifier, `definition.__module__` and `definition.__qualname__`. -/
structure Base where
  identifier : String
  module_name : String
  definition_class : String
deriving DecidableEq, Repr

/-- The `depends_on` argument of `enqueue_perform_complete`: a single job
for a sequential node, a list of jobs for a concurrent node. -/
inductive Dep where
  | one (j : Nat)
  | many (js : List Nat)
deriving DecidableEq, Repr

/-- One recorded backend enqueue call.  `start` is
`enqueue_perform_start(**base_kwargs)` (the process code never passes it a
dependency); `task` is `enqueue_perform_task(...)` with the step's
function name, description, kwargs and single-job dependency; `complete`
is `enqueue_perform_complete(...)`. -/
inductive Call where
  | start (b : Base)
  | task (b : Base) (function_name : String) (descr : Option String)
      (kwargs : Bag) (depends_on : Nat)
  | complete (b : Base) (depends_on : Dep)
deriving DecidableEq, Repr

/-- Result of an enqueue call or a run of enqueue calls: the job handle
the last call returned, the next fresh handle, and the calls emitted. -/
structure EnqResult where
  job : Nat
  next : Nat
  calls : List Call
deriving DecidableEq, Repr

/-- Result of the concurrent child loop: the collected child handles, the
next fresh handle and the calls emitted. -/
structure ConcResult where
  jobs : List Nat
  next : Nat
  calls : List Call
deriving DecidableEq, Repr

/-- `backend.enqueue_perform_start(**base_kwargs)`: returns a fresh job. -/
def enqueue_perform_start (b : Base) (n : Nat) : EnqResult :=
  ⟨n, n + 1, [Call.start b]⟩

/-- `backend.enqueue_perform_task(...)` with function name, description,
kwargs and a single-job dependency: returns a fresh job. -/
def enqueue_perform_task (b : Base) (f : String) (d : Option String)
    (k : Bag) (dep : Nat) (n : Nat) : EnqResult :=
  ⟨n, n + 1, [Call.task b f d k dep]⟩

/-- `backend.enqueue_perform_complete(depends_on=..., **base_kwargs)`:
returns a fresh job. -/
def enqueue_perform_complete (b : Base) (dep : Dep) (n : Nat) : EnqResult :=
  ⟨n, n + 1, [Call.complete b dep]⟩

/-- The tree a `Process` node owns at enqueue time: its `steps` list holds
`Step` leaves (function name, description, kwargs dict) and nested
`SequentialProcess` / `ConcurrentProcess` nodes, each nested node carrying
its own identifier/definition payload. -/
inductive ProcessTree where
  | step (function_name : String) (descr : Option String) (kwargs : Bag)
  | sequentialP (b : Base) (children : List ProcessTree)
  | concurrentP (b : Base) (children : List ProcessTree)
deriving Repr

/-- The source's `is_process` discriminator: `False` on a `Step`, `True`
on a `Process` (the enqueue loops branch on `isinstance(step, Process)`). -/
def is_process : ProcessTree → Bool
  | .step _ _ _ => false
  | .sequentialP _ _ => true
  | .concurrentP _ _ => true

mutual
/-- `Process.enqueue(backend, start_job)` of `process.py`, with the
backend as a call trace and a fresh-handle counter.

Sequential (`SequentialProcess.enqueue`): `job = start_job or
backend.enqueue_perform_start(**base_kwargs)`, then the child loop chains
each child on the previous handle, then one
`enqueue_perform_complete(depends_on=job)`.

Concurrent (`ConcurrentProcess.enqueue`): always its own
`enqueue_perform_start` (the `start_job` parameter is ignored), each child
enqueued against that start handle, then one
`enqueue_perform_complete(depends_on=jobs)` over the collected list.

A `Step` leaf has no `enqueue` method in the source (the loops never
recurse into one); that case returns an empty run. -/
def enqueue : ProcessTree → Option Nat → Nat → EnqResult
  | .step _ _ _, _, n => ⟨n, n, []⟩
  | .sequentialP b cs, startJob, n =>
    match startJob with
    | some j =>
      let r := seqLoop b cs j n
      let c := enqueue_perform_complete b (Dep.one r.job) r.next
      ⟨c.job, c.next, r.calls ++ c.calls⟩
    | none =>
      let s := enqueue_perform_start b n
      let r := seqLoop b cs s.job s.next
      let c := enqueue_perform_complete b (Dep.one r.job) r.next
      ⟨c.job, c.next, s.calls ++ (r.calls ++ c.calls)⟩
  | .concurrentP b cs, _, n =>
    let s := enqueue_perform_start b n
    let r := concLoop b cs s.job s.next
    let c := enqueue_perform_complete b (Dep.many r.jobs) r.next
    ⟨c.job, c.next, s.calls ++ (r.calls ++ c.calls)⟩

/-- The `for step in self.steps` loop of `SequentialProcess.enqueue`:
threads `job` through the children, recursing with `start_job=job` into a
nested `Process` and calling `enqueue_perform_task(..., depends_on=job)`
on a `Step`. -/
def seqLoop : Base → List ProcessTree → Nat → Nat → EnqResult
  | _, [], j, n => ⟨j, n, []⟩
  | b, ProcessTree.step f d k :: cs, j, n =>
    let t := enqueue_perform_task b f d k j n
    let r := seqLoop b cs t.job t.next
    ⟨r.job, r.next, t.calls ++ r.calls⟩
  | b, ProcessTree.sequentialP b2 cs2 :: cs, j, n =>
    let t := enqueue (ProcessTree.sequentialP b2 cs2) (some j) n
    let r := seqLoop b cs t.job t.next
    ⟨r.job, r.next, t.calls ++ r.calls⟩
  | b, ProcessTree.concurrentP b2 cs2 :: cs, j, n =>
    let t := enqueue (ProcessTree.concurrentP b2 cs2) (some j) n
    let r := seqLoop b cs t.job t.next
    ⟨r.job, r.next, t.calls ++ r.calls⟩

/-- The `for step in self.steps` loop of `ConcurrentProcess.enqueue`:
every child is enqueued against the one start handle `j0`, and the
resulting handles are collected in order. -/
def concLoop : Base → List ProcessTree → Nat → Nat → ConcResult
  | _, [], _, n => ⟨[], n, []⟩
  | b, ProcessTree.step f d k :: cs, j0, n =>
    let t := enqueue_perform_task b f d k j0 n
    let r := concLoop b cs j0 t.next
    ⟨t.job :: r.jobs, r.next, t.calls ++ r.calls⟩
  | b, ProcessTree.sequentialP b2 cs2 :: cs, j0, n =>
    let t := enqueue (ProcessTree.sequentialP b2 cs2) (some j0) n
    let r := concLoop b cs j0 t.next
    ⟨t.job :: r.jobs, r.next, t.calls ++ r.calls⟩
  | b, ProcessTree.concurrentP b2 cs2 :: cs, j0, n =>
    let t := enqueue (ProcessTree.concurrentP b2 cs2) (some j0) n
    let r := concLoop b cs j0 t.next
    ⟨t.job :: r.jobs, r.next, t.calls ++ r.calls⟩
end

/-- The sequential chaining property of claim C1, child by child: starting
from handle `j` and counter `n`, each child in list order contributes its
calls depending on the immediately preceding handle — a `Step` child via
`enqueue_perform_task` with its function name, description and kwargs, a
`Process` child by recursive `enqueue` with `start_job` set to the
preceding handle — ending at handle `j2` and counter `n2`. -/
inductive SeqChain (b : Base) : Nat → Nat → List ProcessTree → List Call → Nat → Nat → Prop where
  | nil : ∀ j n, SeqChain b j n [] [] j n
  | stepChild : ∀ f d k j n cs rest j2 n2,
      SeqChain b (enqueue_perform_task b f d k j n).job
        (enqueue_perform_task b f d k j n).next cs rest j2 n2 →
      SeqChain b j n (ProcessTree.step f d k :: cs)
        ((enqueue_perform_task b f d k j n).calls ++ rest) j2 n2
  | procChild : ∀ c j n cs rest j2 n2,
      is_process c = true →
      SeqChain b (enqueue c (some j) n).job (enqueue c (some j) n).next
        cs rest j2 n2 →
      SeqChain b j n (c :: cs) ((enqueue c (some j) n).calls ++ rest) j2 n2

/-- The fan-out property of claim C2, child by child: with shared start
handle `s`, each child in list order is enqueued depending only on `s` (a
`Step` child via `enqueue_perform_task` with `depends_on = s`, a `Process`
child by recursive `enqueue` with `start_job = s`), and the resulting
handles are collected in order. -/
inductive ConcFan (b : Base) (s : Nat) : Nat → List ProcessTree → List Call → List Nat → Nat → Prop where
  | nil : ∀ n, ConcFan b s n [] [] [] n
  | stepChild : ∀ f d k n cs rest hs n2,
      ConcFan b s (enqueue_perform_task b f d k s n).next cs rest hs n2 →
      ConcFan b s n (ProcessTree.step f d k :: cs)
        ((enqueue_perform_task b f d k s n).calls ++ rest)
        ((enqueue_perform_task b f d k s n).job :: hs) n2
  | procChild : ∀ c n cs rest hs n2,
      is_process c = true →
      ConcFan b s (enqueue c (some s) n).next cs rest hs n2 →
      ConcFan b s n (c :: cs) ((enqueue c (some s) n).calls ++ rest)
        ((enqueue c (some s) n).job :: hs) n2

theorem seqLoop_chain (b : Base) :
    ∀ (cs : List ProcessTree) (j n : Nat),
      SeqChain b j n cs (seqLoop b cs j n).calls (seqLoop b cs j n).job
        (seqLoop b cs j n).next := by
  intro cs
  induction cs with
  | nil => intro j n; exact SeqChain.nil j n
  | cons c cs ih =>
    intro j n
    cases c with
    | step f d k =>
      simpa [seqLoop] using SeqChain.stepChild f d k j n cs _ _ _ (ih _ _)
    | sequentialP b2 cs2 =>
      simpa [seqLoop] using
        SeqChain.procChild (ProcessTree.sequentialP b2 cs2) j n cs _ _ _
          rfl (ih _ _)
    | concurrentP b2 cs2 =>
      simpa [seqLoop] using
        SeqChain.procChild (ProcessTree.concurrentP b2 cs2) j n cs _ _ _
          rfl (ih _ _)

theorem concLoop_fan (b : Base) (s : Nat) :
    ∀ (cs : List ProcessTree) (n : Nat),
      ConcFan b s n cs (concLoop b cs s n).calls (concLoop b cs s n).jobs
        (concLoop b cs s n).next := by
  intro cs
  induction cs with
  | nil => intro n; exact ConcFan.nil n
  | cons c cs ih =>
    intro n
    cases c with
    | step f d k =>
      simpa [concLoop] using ConcFan.stepChild f d k n cs _ _ _ (ih _)
    | sequentialP b2 cs2 =>
      simpa [concLoop] using
        ConcFan.procChild (ProcessTree.sequentialP b2 cs2) n cs _ _ _
          rfl (ih _)
    | concurrentP b2 cs2 =>
      simpa [concLoop] using
        ConcFan.procChild (ProcessTree.concurrentP b2 cs2) n cs _ _ _
          rfl (ih _)

theorem concLoop_length (b : Base) (s : Nat) :
    ∀ (cs : List ProcessTree) (n : Nat),
      (concLoop b cs s n).jobs.length = cs.length := by
  intro cs
  induction cs with
  | nil => intro n; simp [concLoop]
  | cons c cs ih =>
    intro n
    cases c with
    | step f d k => simp [concLoop, ih]
    | sequentialP b2 cs2 => simp [concLoop, ih]
    | concurrentP b2 cs2 => simp [concLoop, ih]

/-- Claim C1: for every `SequentialProcess` with children `cs` and every
backend state, `enqueue` uses the passed-in `start_job` as the initial
dependency when one is provided (emitting no start call of its own),
otherwise emits exactly one start callback first; then each child in list
order is enqueued depending on the immediately preceding handle (a `Step`
via `enqueue_perform_task` with the step's function name, description and
kwargs, a `Process` child by recursive `enqueue` with `start_job` set to
the preceding handle); and the node finally emits exactly one completion
callback depending on the last handle and returns that completion's job. -/
theorem claim1_sequential_enqueue_chain
    (b : Base) (cs : List ProcessTree) (sj : Option Nat) (n : Nat) :
    ∃ (pre : List Call) (j0 n1 : Nat) (body : List Call) (jl n2 : Nat),
      (match sj with
       | some j => pre = [] ∧ j0 = j ∧ n1 = n
       | none => pre = [Call.start b] ∧ j0 = n ∧ n1 = n + 1) ∧
      SeqChain b j0 n1 cs body jl n2 ∧
      enqueue (ProcessTree.sequentialP b cs) sj n =
        ⟨n2, n2 + 1, pre ++ (body ++ [Call.complete b (Dep.one jl)])⟩ := by
  cases sj with
  | some j =>
    refine ⟨[], j, n, (seqLoop b cs j n).calls, (seqLoop b cs j n).job,
      (seqLoop b cs j n).next, ⟨rfl, rfl, rfl⟩, seqLoop_chain b cs j n, ?_⟩
    simp [enqueue, enqueue_perform_complete]
  | none =>
    refine ⟨[Call.start b], n, n + 1, (seqLoop b cs n (n + 1)).calls,
      (seqLoop b cs n (n + 1)).job, (seqLoop b cs n (n + 1)).next,
      ⟨rfl, rfl, rfl⟩, seqLoop_chain b cs n (n + 1), ?_⟩
    simp [enqueue, enqueue_perform_start, enqueue_perform_complete]

/-- Claim C2: for every `ConcurrentProcess` with children `cs` and every
backend state, `enqueue` ignores any passed-in `start_job` (its result is
the same as with none), always emits its own start callback first; every
direct child is enqueued depending only on that start handle (a `Process`
child recursively with `start_job` set to it), the child handles are
collected in list order with one handle per child, and the node finally
emits exactly one completion callback depending on the whole handle list
and returns that completion's job. -/
theorem claim2_concurrent_enqueue_fanout
    (b : Base) (cs : List ProcessTree) (sj : Option Nat) (n : Nat) :
    enqueue (ProcessTree.concurrentP b cs) sj n =
      enqueue (ProcessTree.concurrentP b cs) none n ∧
    ∃ (body : List Call) (hs : List Nat) (n2 : Nat),
      ConcFan b n (n + 1) cs body hs n2 ∧
      hs.length = cs.length ∧
      enqueue (ProcessTree.concurrentP b cs) sj n =
        ⟨n2, n2 + 1, Call.start b :: (body ++ [Call.complete b (Dep.many hs)])⟩ := by
  constructor
  · simp [enqueue]
  · refine ⟨(concLoop b cs n (n + 1)).calls, (concLoop b cs n (n + 1)).jobs,
      (concLoop b cs n (n + 1)).next, concLoop_fan b n cs (n + 1),
      concLoop_length b n cs (n + 1), ?_⟩
    simp [enqueue, enqueue_perform_start, enqueue_perform_complete]

/-! ## Task execution protocol (`backend.py`, `Backend.perform_task`)

`perform_task` runs the task inside the definition's `around_task` context
manager and classifies a raised error with three `except` clauses in
order: `NonRetryableProcessError` (log, `on_failed`, re-raise),
`CancelProcessError` (log, `job.cancel()`, `job.delete_dependents()`,
`on_cancelled`, swallow), any other `Exception` (log, `on_failed`,
re-raise).  We model the exceptions a task body can raise and record the
observable effects — job-handle calls and lifecycle-hook invocations — as
an ordered event list, together with the error that propagates out. -/

/-- An exception raised by the task function: the non-retryable condition
(`NonRetryableProcessError`), the cancel condition (`CancelProcessError`),
or any other `Exception` (carrying its message). -/
inductive RaisedError where
  | nonRetryable
  | cancel
  | other (msg : String)
deriving DecidableEq, Repr

/-- An observable event of one `perform_task` run: entering the
`around_task` scope (its before-logic), the task call itself, the scope's
after-logic (which runs only if the task returns normally), the
job-handle operations, and the lifecycle hooks with their argument. -/
inductive Ev where
  | aroundBefore
  | taskCall
  | aroundAfter
  | jobCancel
  | jobDeleteDependents
  | onFailed (e : RaisedError)
  | onCancelled
deriving DecidableEq, Repr

/-- `Backend.perform_task` over the outcome of the task function (`none` =
returned normally, `some e` = raised `e`), with the definition's default
`around_task` scope: returns the ordered event trace and the error that
propagates out of `perform_task`.  The `try` block runs the scope's
before-logic, the task call, and — only when the task returns normally —
the scope's after-logic; the `except` clauses then classify a raised
error in source order. -/
def perform_task (outcome : Option RaisedError) :
    List Ev × Option RaisedError :=
  let tryRun : List Ev × Option RaisedError :=
    match outcome with
    | none => ([Ev.aroundBefore, Ev.taskCall, Ev.aroundAfter], none)
    | some e => ([Ev.aroundBefore, Ev.taskCall], some e)
  match tryRun.2 with
  | none => (tryRun.1, none)
  | some RaisedError.nonRetryable =>
      (tryRun.1 ++ [Ev.onFailed RaisedError.nonRetryable],
       some RaisedError.nonRetryable)
  | some RaisedError.cancel =>
      (tryRun.1 ++ [Ev.jobCancel, Ev.jobDeleteDependents, Ev.onCancelled],
       none)
  | some (RaisedError.other m) =>
      (tryRun.1 ++ [Ev.onFailed (RaisedError.other m)],
       some (RaisedError.other m))

/-- Claim C3: when the task function raises the cancel condition,
`perform_task` calls `job.cancel()` and `job.delete_dependents()` exactly
once each and in that order, invokes `on_cancelled` exactly once, invokes
`on_failed` never, and lets no error propagate out. -/
theorem claim3_perform_task_cancel :
    perform_task (some RaisedError.cancel) =
      ([Ev.aroundBefore, Ev.taskCall, Ev.jobCancel, Ev.jobDeleteDependents,
        Ev.onCancelled], none) ∧
    (perform_task (some RaisedError.cancel)).1.count Ev.jobCancel = 1 ∧
    (perform_task (some RaisedError.cancel)).1.count Ev.jobDeleteDependents = 1 ∧
    (perform_task (some RaisedError.cancel)).1.count Ev.onCancelled = 1 ∧
    (∀ e, (perform_task (some RaisedError.cancel)).1.count (Ev.onFailed e) = 0) ∧
    (perform_task (some RaisedError.cancel)).2 = none := by
  refine ⟨rfl, rfl, rfl, rfl, ?_, rfl⟩
  intro e
  simp [perform_task, List.count]

/-- Claim C4: when the task function raises any condition other than the
cancel condition — the non-retryable condition or any other error —
`perform_task` invokes `on_failed` exactly once with that error, the same
condition propagates back out, and `job.cancel()` and
`job.delete_dependents()` are never called. -/
theorem claim4_perform_task_failure (e : RaisedError)
    (h : e ≠ RaisedError.cancel) :
    perform_task (some e) =
      ([Ev.aroundBefore, Ev.taskCall, Ev.onFailed e], some e) ∧
    (perform_task (some e)).1.count (Ev.onFailed e) = 1 ∧
    (perform_task (some e)).1.count Ev.jobCancel = 0 ∧
    (perform_task (some e)).1.count Ev.jobDeleteDependents = 0 := by
  cases e with
  | nonRetryable => refine ⟨rfl, by decide, by decide, by decide⟩
  | cancel => exact absurd rfl h
  | other m =>
    refine ⟨rfl, ?_, ?_, ?_⟩ <;> simp [perform_task, List.count]

/-- Witness for claim C4 at the non-retryable condition: `on_failed` fires
once with it, it propagates, and the job handle is untouched. -/
theorem claim4_perform_task_failure_witness :
    perform_task (some RaisedError.nonRetryable) =
      ([Ev.aroundBefore, Ev.taskCall, Ev.onFailed RaisedError.nonRetryable],
       some RaisedError.nonRetryable) ∧
    (perform_task (some RaisedError.nonRetryable)).1.count
      (Ev.onFailed RaisedError.nonRetryable) = 1 ∧
    (perform_task (some RaisedError.nonRetryable)).1.count Ev.jobCancel = 0 ∧
    (perform_task (some RaisedError.nonRetryable)).1.count
      Ev.jobDeleteDependents = 0 :=
  claim4_perform_task_failure RaisedError.nonRetryable (by decide)

/-! ## Builder (`builder.py`)

A `Builder` is a cursor: the `Process` node currently being populated,
the active kwargs dict, an options bag and a description.  Python passes
the node and the kwargs dict by reference and `Builder.task` stores
`self.kwargs` itself into the new `Step`, so we model object identity
explicitly: `procRef` is the identity of the `Process` node object and
`bagRef` the identity of the kwargs dict object, with dict contents held
in a separate heap keyed by `bagRef`. -/

/-- The two `Process` variants a builder block can construct. -/
inductive PKind where
  | sequential
  | concurrent
deriving DecidableEq, Repr

/-- The `Builder` cursor: identity of the process node being populated
(`self.process`), that node's `identifier`, identity of the active kwargs
dict (`self.kwargs`), and the builder's description. -/
structure BuilderS where
  procRef : Nat
  procIdent : String
  bagRef : Nat
  descr : Option String
deriving DecidableEq, Repr

/-- A child of a process node under construction: a `Step` (function
name, resolved description, identity of its kwargs dict) or a nested
process node (variant, identifier, children). -/
inductive BNode where
  | stepC (function_name : String) (descr : Option String) (bagRef : Nat)
  | procC (kind : PKind) (identifier : String) (children : List BNode)
deriving Repr

/-- The description resolution of `Builder.task`:
`description or getattr(func, "description", self.description)`.
`funcAttr = some v` means the function object carries a `description`
attribute with value `v` (a bare `@task` decoration attaches `None`);
`funcAttr = none` means it carries no such attribute, so `getattr` falls
back to the builder's description. -/
def resolveDescription (explicit : Option String)
    (funcAttr : Option (Option String)) (builderDescr : Option String) :
    Option String :=
  pyOr explicit
    (match funcAttr with
     | some v => v
     | none => builderDescr)

/-- `Builder.task(func, description?)`: appends to the current node's
children a `Step` holding the function, the resolved description, and the
builder's kwargs dict itself (`kwargs=self.kwargs` — the same object, not
a copy). -/
def task (children : List BNode) (b : BuilderS) (f : String)
    (funcAttr : Option (Option String)) (explicitDescr : Option String) :
    List BNode :=
  children ++
    [BNode.stepC f (resolveDescription explicitDescr funcAttr b.descr) b.bagRef]

/-- The child `Builder` created by `Builder._build_process` (and, with the
same field values, by `Builder.sub_process`): a fresh `Process` node
object carrying the parent node's identifier, the same options, the
passed description or else the parent builder's, and the parent's kwargs
dict uncopied. -/
def mkChildBuilder (b : BuilderS) (descr : Option String)
    (freshProcRef : Nat) : BuilderS :=
  ⟨freshProcRef, b.procIdent, b.bagRef, pyOr descr b.descr⟩

/-- `Builder._build_process(process_type, description)` as entered by the
`sequential()` / `concurrent()` context managers, with the with-block
body abstracted as a function from the child builder and the child
node's (initially empty) children to either an error or the child's
final children.  The generator appends the child node to the parent's
`steps` only after the `yield` returns normally; an error raised in the
with-block is rethrown at the `yield`, so the append is skipped and the
error propagates.  Returns the parent's children after the block and the
propagated error, if any. -/
def build_process (kind : PKind) (parent : List BNode) (b : BuilderS)
    (descr : Option String) (freshProcRef : Nat)
    (body : BuilderS → List BNode → Except Unit (List BNode)) :
    List BNode × Option Unit :=
  let cb := mkChildBuilder b descr freshProcRef
  match body cb [] with
  | Except.error e => (parent, some e)
  | Except.ok cs => (parent ++ [BNode.procC kind b.procIdent cs], none)

/-- `Builder.each(func, description?)`: the generator's output is a list
of items, each a yielded kwargs dict (a fresh object, allocated here at a
fresh reference) with an optional per-item description (`None` for a bare
dict yield).  For each item a new `Builder` is yielded sharing the same
`Process` node, with kwargs set to the yielded dict verbatim and
description `desc or description or self.description`.  Each yielded
builder is returned paired with the contents of its kwargs dict. -/
def eachOp (b : BuilderS) (descr : Option String) :
    List (Bag × Option String) → Nat → List (BuilderS × Bag) × Nat
  | [], n => ([], n)
  | (bag, idesc) :: rest, n =>
    let nb : BuilderS :=
      ⟨b.procRef, b.procIdent, n, pyOr idesc (pyOr descr b.descr)⟩
    let r := eachOp b descr rest (n + 1)
    ((nb, bag) :: r.1, r.2)

/-- A declared argument type in `expected_arguments`: the claims exercise
`str` and `int`. -/
inductive PyType where
  | str
  | int
deriving DecidableEq, Repr

/-- The pass/fail contract of the external type-validation machinery
(`TypeAdapter(expected_type).validate_python(value)`): a string value
conforms to `str`, an integer value to `int`. -/
def conforms : PyVal → PyType → Bool
  | PyVal.str _, PyType.str => true
  | PyVal.int _, PyType.int => true
  | _, _ => false

/-- Python `bag[name]` / `name in bag` on a kwargs dict. -/
def dict_get : Bag → String → Option PyVal
  | [], _ => none
  | (k, v) :: rest, name => if k = name then some v else dict_get rest name

/-- The condition raised by `expected_arguments`: `TypeError` for an
absent required name, `ValueError` for a present but non-conforming
value, each keyed by the argument name. -/
inductive ArgCheckError where
  | missing (name : String)
  | typeMismatch (name : String)
deriving DecidableEq, Repr

/-- The body of the `expected_arguments` loop for one named expectation:
raise the missing condition if the name is absent from the builder's
kwargs; otherwise, when the declared type is not `None`, validate the
value and raise the type-mismatch condition on failure; otherwise pass. -/
def check_one (bag : Bag) (name : String) (ety : Option PyType) :
    Option ArgCheckError :=
  match dict_get bag name with
  | none => some (ArgCheckError.missing name)
  | some v =>
    match ety with
    | none => none
    | some t =>
      if conforms v t then none else some (ArgCheckError.typeMismatch name)

/-- `Builder.expected_arguments(**kwargs)`: runs the loop body over the
named expectations in order; the first raised condition aborts the loop
and propagates, and the call succeeds silently when every expectation
passes. -/
def expected_arguments (bag : Bag) :
    List (String × Option PyType) → Option ArgCheckError
  | [] => none
  | (name, ety) :: rest =>
    match check_one bag name ety with
    | some e => some e
    | none => expected_arguments bag rest

/-- One named expectation passes against a kwargs bag: the name is
present and, when a type is declared, the value conforms. -/
def arg_ok (bag : Bag) (p : String × Option PyType) : Bool :=
  match dict_get bag p.1 with
  | none => false
  | some v =>
    match p.2 with
    | none => true
    | some t => conforms v t

/-- Claim C5: a `sequential()` / `concurrent()` scope whose body exits
via a raised error appends no node to the parent process's children —
the parent's children are unchanged — while a scope whose body exits
normally appends exactly one new process node of the requested variant. -/
theorem claim5_scope_atomic_append
    (kind : PKind) (parent : List BNode) (b : BuilderS)
    (descr : Option String) (freshProcRef : Nat)
    (body : BuilderS → List BNode → Except Unit (List BNode)) :
    ((build_process kind parent b descr freshProcRef body).2.isSome →
      (build_process kind parent b descr freshProcRef body).1 = parent) ∧
    ((build_process kind parent b descr freshProcRef body).2 = none →
      ∃ cs, (build_process kind parent b descr freshProcRef body).1 =
        parent ++ [BNode.procC kind b.procIdent cs]) := by
  cases h : body (mkChildBuilder b descr freshProcRef) [] with
  | error e =>
    constructor
    · intro _; simp [build_process, h]
    · intro hc; simp [build_process, h] at hc
  | ok cs =>
    constructor
    · intro hc; simp [build_process, h] at hc
    · intro _; exact ⟨cs, by simp [build_process, h]⟩

/-- Witness for claim C5: a body that raises leaves the parent's children
empty; a body that registers one step exits normally and appends exactly
one sequential node. -/
theorem claim5_scope_atomic_append_witness :
    (build_process PKind.sequential [] ⟨0, "pid", 0, none⟩ none 1
      (fun _ _ => Except.error ())).1 = [] ∧
    ∃ cs, (build_process PKind.sequential [] ⟨0, "pid", 0, none⟩ none 1
      (fun cb acc => Except.ok (task acc cb "f" none none))).1 =
        [] ++ [BNode.procC PKind.sequential "pid" cs] :=
  ⟨(claim5_scope_atomic_append PKind.sequential []
      ⟨0, "pid", 0, none⟩ none 1 (fun _ _ => Except.error ())).1 rfl,
   (claim5_scope_atomic_append PKind.sequential []
      ⟨0, "pid", 0, none⟩ none 1
      (fun cb acc => Except.ok (task acc cb "f" none none))).2 rfl⟩

/-- Claim C6: `each` over a generator yielding `k` items yields exactly
`k` builders in order; every yielded builder shares the same `Process`
node object as its creator, and its kwargs dict contents equal the
corresponding yielded bag exactly — a full replacement of the enclosing
kwargs, not a merge. -/
theorem claim6_each_replaces_kwargs
    (b : BuilderS) (descr : Option String)
    (items : List (Bag × Option String)) (n : Nat) :
    (eachOp b descr items n).1.length = items.length ∧
    (eachOp b descr items n).1.map (fun p => p.1.procRef) =
      items.map (fun _ => b.procRef) ∧
    (eachOp b descr items n).1.map (fun p => p.2) = items.map Prod.fst := by
  induction items generalizing n with
  | nil => exact ⟨rfl, rfl, rfl⟩
  | cons it rest ih =>
    obtain ⟨bag, idesc⟩ := it
    obtain ⟨h1, h2, h3⟩ := ih (n + 1)
    exact ⟨by simp [eachOp, h1], by simp [eachOp, h2], by simp [eachOp, h3]⟩

theorem check_one_none_iff (bag : Bag) (name : String) (ety : Option PyType) :
    check_one bag name ety = none ↔ arg_ok bag (name, ety) = true := by
  cases hd : dict_get bag name with
  | none => simp [check_one, arg_ok, hd]
  | some v =>
    cases ety with
    | none => simp [check_one, arg_ok, hd]
    | some t =>
      by_cases hc : conforms v t = true <;> simp [check_one, arg_ok, hd, hc]

theorem check_one_missing (bag : Bag) (name : String) (ety : Option PyType)
    (nm : String) :
    check_one bag name ety = some (ArgCheckError.missing nm) →
    nm = name ∧ dict_get bag name = none := by
  cases hd : dict_get bag name with
  | none =>
    intro h
    simp only [check_one, hd, Option.some.injEq,
      ArgCheckError.missing.injEq] at h
    subst h
    exact ⟨rfl, rfl⟩
  | some v =>
    cases ety with
    | none => intro h; simp [check_one, hd] at h
    | some t =>
      intro h
      by_cases hc : conforms v t = true <;> simp [check_one, hd, hc] at h

theorem check_one_mismatch (bag : Bag) (name : String) (ety : Option PyType)
    (nm : String) :
    check_one bag name ety = some (ArgCheckError.typeMismatch nm) →
    nm = name ∧ ∃ v t, ety = some t ∧ dict_get bag name = some v ∧
      conforms v t = false := by
  cases hd : dict_get bag name with
  | none => intro h; simp [check_one, hd] at h
  | some v =>
    cases ety with
    | none => intro h; simp [check_one, hd] at h
    | some t =>
      intro h
      by_cases hc : conforms v t = true
      · simp [check_one, hd, hc] at h
      · simp [check_one, hd, hc] at h
        subst h
        exact ⟨rfl, v, t, rfl, rfl, by simpa using hc⟩

theorem check_one_agree (bag bag2 : Bag) (name : String)
    (ety : Option PyType) (h : dict_get bag2 name = dict_get bag name) :
    check_one bag2 name ety = check_one bag name ety := by
  simp [check_one, h]

/-- Claim C7: `expected_arguments` succeeds silently exactly when every
named expectation is present and conforming (with no constraint beyond
presence for a null declared type); a missing condition is only raised
for an expected name absent from the kwargs; a type-mismatch condition is
only raised for an expected name whose present value fails its declared
type; and the outcome never depends on kwargs entries beyond the named
expectations. -/
theorem claim7_expected_arguments
    (bag : Bag) (exps : List (String × Option PyType)) :
    (expected_arguments bag exps = none ↔ ∀ p ∈ exps, arg_ok bag p = true) ∧
    (∀ name, expected_arguments bag exps = some (ArgCheckError.missing name) →
      dict_get bag name = none ∧ ∃ t, (name, t) ∈ exps) ∧
    (∀ name,
      expected_arguments bag exps = some (ArgCheckError.typeMismatch name) →
      ∃ v t, dict_get bag name = some v ∧ (name, some t) ∈ exps ∧
        conforms v t = false) ∧
    (∀ bag2, (∀ p ∈ exps, dict_get bag2 p.1 = dict_get bag p.1) →
      expected_arguments bag2 exps = expected_arguments bag exps) := by
  induction exps with
  | nil =>
    refine ⟨by simp [expected_arguments], ?_, ?_, ?_⟩
    · intro name h; simp [expected_arguments] at h
    · intro name h; simp [expected_arguments] at h
    · intro bag2 _; rfl
  | cons p rest ih =>
    obtain ⟨name, ety⟩ := p
    obtain ⟨ih1, ih2, ih3, ih4⟩ := ih
    refine ⟨?_, ?_, ?_, ?_⟩
    · constructor
      · intro h q hq
        cases hc : check_one bag name ety with
        | some e => simp [expected_arguments, hc] at h
        | none =>
          simp only [expected_arguments, hc] at h
          rcases List.mem_cons.mp hq with rfl | hq
          · exact (check_one_none_iff bag name ety).mp hc
          · exact ih1.mp h q hq
      · intro h
        have hc : check_one bag name ety = none :=
          (check_one_none_iff bag name ety).mpr (h _ (List.mem_cons_self _ _))
        simp only [expected_arguments, hc]
        exact ih1.mpr (fun q hq => h q (List.mem_cons_of_mem _ hq))
    · intro nm h
      cases hc : check_one bag name ety with
      | some e =>
        simp only [expected_arguments, hc, Option.some.injEq] at h
        subst h
        obtain ⟨hnm, hd⟩ := check_one_missing bag name ety nm hc
        subst hnm
        exact ⟨hd, ety, List.mem_cons_self _ _⟩
      | none =>
        simp only [expected_arguments, hc] at h
        obtain ⟨h1, t, h2⟩ := ih2 nm h
        exact ⟨h1, t, List.mem_cons_of_mem _ h2⟩
    · intro nm h
      cases hc : check_one bag name ety with
      | some e =>
        simp only [expected_arguments, hc, Option.some.injEq] at h
        subst h
        obtain ⟨hnm, v, t, hety, hd, hcf⟩ := check_one_mismatch bag name ety nm hc
        subst hnm
        subst hety
        exact ⟨v, t, hd, List.mem_cons_self _ _, hcf⟩
      | none =>
        simp only [expected_arguments, hc] at h
        obtain ⟨v2, t2, h1, h2, h3⟩ := ih3 nm h
        exact ⟨v2, t2, h1, List.mem_cons_of_mem _ h2, h3⟩
    · intro bag2 hagree
      have hone : check_one bag2 name ety = check_one bag name ety :=
        check_one_agree bag bag2 name ety
          (hagree (name, ety) (List.mem_cons_self _ _))
      have hrest := ih4 bag2 (fun q hq => hagree q (List.mem_cons_of_mem _ hq))
      simp only [expected_arguments, hone]
      cases check_one bag name ety with
      | some e => rfl
      | none => exact hrest


/-- Witness for claim C7, at the spec's examples: `foo=str` against
`{foo: "x"}` succeeds silently (via the success characterization), and
the outcome is unchanged by an extra unnamed kwarg (via the
extra-kwargs-independence part); against `{foo: 123}` it raises the
type-mismatch condition and against `{}` the missing condition. -/
theorem claim7_expected_arguments_witness :
    expected_arguments [("foo", PyVal.str "x")] [("foo", some PyType.str)] =
      none ∧
    expected_arguments [("foo", PyVal.str "x"), ("bar", PyVal.int 7)]
        [("foo", some PyType.str)] =
      expected_arguments [("foo", PyVal.str "x")] [("foo", some PyType.str)] ∧
    expected_arguments [("foo", PyVal.int 123)] [("foo", some PyType.str)] =
      some (ArgCheckError.typeMismatch "foo") ∧
    expected_arguments [] [("foo", some PyType.str)] =
      some (ArgCheckError.missing "foo") :=
  ⟨(claim7_expected_arguments [("foo", PyVal.str "x")]
      [("foo", some PyType.str)]).1.mpr (by decide),
   (claim7_expected_arguments [("foo", PyVal.str "x")]
      [("foo", some PyType.str)]).2.2.2
      [("foo", PyVal.str "x"), ("bar", PyVal.int 7)] (by decide),
   by decide, by decide⟩

/-- Counterexample to claim C9 as stated: with an explicit description
argument given (the empty string) and the function carrying an attached
description, `Builder.task` resolves to the attached description, not the
explicit argument — Python's `description or ...` treats the given empty
string as absent. -/
theorem claim9_counterexample :
    task [] ⟨0, "pid", 0, none⟩ "f" (some (some "attached")) (some "") =
      [BNode.stepC "f" (some "attached") 0] ∧
    (some "attached" : Option String) ≠ some "" := by
  exact ⟨rfl, by decide⟩

/-- Claim C9 as amended: the appended step's resolved description follows
the precedence — the explicit description argument if given and truthy
(non-empty); else the function's attached description value whenever the
function carries the attribute (even an attached `None`, as a bare
`@task` decoration leaves); else the current builder's description. -/
theorem claim9_description_precedence_amended
    (acc : List BNode) (b : BuilderS) (f : String)
    (funcAttr : Option (Option String)) (d : Option String) :
    task acc b f funcAttr d =
      acc ++ [BNode.stepC f (resolveDescription d funcAttr b.descr) b.bagRef] ∧
    (pyTruthy d = true → resolveDescription d funcAttr b.descr = d) ∧
    (pyTruthy d = false → ∀ v, funcAttr = some v →
      resolveDescription d funcAttr b.descr = v) ∧
    (pyTruthy d = false → funcAttr = none →
      resolveDescription d funcAttr b.descr = b.descr) := by
  refine ⟨rfl, ?_, ?_, ?_⟩
  · intro h; simp [resolveDescription, pyOr, h]
  · intro h v hv; subst hv; simp [resolveDescription, pyOr, h]
  · intro h hv; subst hv; simp [resolveDescription, pyOr, h]

/-- Witness for the amended claim C9, one concrete instance per
precedence level: truthy explicit argument wins; with no truthy explicit
argument the attached description value is used (including an attached
`None`); with no attribute the builder's description is used. -/
theorem claim9_description_precedence_amended_witness :
    resolveDescription (some "x") (some (some "y")) (some "z") = some "x" ∧
    resolveDescription none (some (some "y")) (some "z") = some "y" ∧
    resolveDescription none (some none) (some "z") = none ∧
    resolveDescription none none (some "z") = some "z" :=
  ⟨(claim9_description_precedence_amended [] ⟨0, "p", 0, some "z"⟩ "f"
      (some (some "y")) (some "x")).2.1 (by decide),
   (claim9_description_precedence_amended [] ⟨0, "p", 0, some "z"⟩ "f"
      (some (some "y")) none).2.2.1 (by decide) (some "y") rfl,
   (claim9_description_precedence_amended [] ⟨0, "p", 0, some "z"⟩ "f"
      (some none) none).2.2.1 (by decide) none rfl,
   (claim9_description_precedence_amended [] ⟨0, "p", 0, some "z"⟩ "f"
      none none).2.2.2 (by decide) rfl⟩

/-! ## Builder construction runs

A `define_process` body is a sequence of builder API calls; nested
blocks carry their own sequences.  The interpreter below threads the
accumulated children of the node currently being populated, plus a
fresh-reference counter used to model the new dict objects produced by
`each` / `transform` and the new node objects of nested blocks. -/

/-- One builder API call inside a `define_process` body.  `taskS` is
`builder.task(func, description?)` (with the function's `description`
attribute, when it carries one); `seqS` / `concS` are `with
builder.sequential/concurrent(description?)` blocks; `subS` is
`builder.sub_process(definition, description?)` with the sub-definition's
declared execution mode and construction body; `eachS` is `for b in
builder.each(gen, description?)` with the generator's per-item
descriptions and the body run once per item; `transformS` is `with
builder.transform(func, description?)` with the returned item's
description; `failS` is user code raising an error at that point. -/
inductive Script where
  | taskS (function_name : String) (funcAttr : Option (Option String))
      (explicitDescr : Option String)
  | seqS (descr : Option String) (body : List Script)
  | concS (descr : Option String) (body : List Script)
  | subS (mode : PKind) (descr : Option String) (body : List Script)
  | eachS (descr : Option String) (items : List (Option String))
      (body : List Script)
  | transformS (itemDescr : Option String) (descr : Option String)
      (body : List Script)
  | failS
deriving Repr

mutual
/-- Run one builder API call against the builder `b`, the accumulated
children `acc` of the node `b` populates, and the fresh-reference
counter `n`.  `sequential()` / `concurrent()` append their new node only
when the block body returns normally; `sub_process` constructs its node
with the parent node's identifier and appends it after running the
sub-definition's body; `each` runs its body once per generator item with
the yielded dict (a fresh object) replacing the kwargs; `transform` runs
its body once with the returned dict replacing the kwargs; an error
raised anywhere propagates. -/
def runS : Script → BuilderS → List BNode → Nat → Except Unit (List BNode × Nat)
  | Script.taskS f fa d, b, acc, n => Except.ok (task acc b f fa d, n)
  | Script.seqS d body, b, acc, n =>
    match runList body (mkChildBuilder b d n) [] (n + 1) with
    | Except.error e => Except.error e
    | Except.ok (cs, n2) =>
      Except.ok (acc ++ [BNode.procC PKind.sequential b.procIdent cs], n2)
  | Script.concS d body, b, acc, n =>
    match runList body (mkChildBuilder b d n) [] (n + 1) with
    | Except.error e => Except.error e
    | Except.ok (cs, n2) =>
      Except.ok (acc ++ [BNode.procC PKind.concurrent b.procIdent cs], n2)
  | Script.subS mode d body, b, acc, n =>
    match runList body (mkChildBuilder b d n) [] (n + 1) with
    | Except.error e => Except.error e
    | Except.ok (cs, n2) =>
      Except.ok (acc ++ [BNode.procC mode b.procIdent cs], n2)
  | Script.eachS d items body, b, acc, n => runEach d items body b acc n
  | Script.transformS nd d body, b, acc, n =>
    runList body ⟨b.procRef, b.procIdent, n, pyOr nd (pyOr d b.descr)⟩
      acc (n + 1)
  | Script.failS, _, _, _ => Except.error ()
termination_by s _ _ _ => sizeOf s
decreasing_by all_goals simp_wf

/-- Run a sequence of builder API calls in order, stopping at the first
raised error. -/
def runList : List Script → BuilderS → List BNode → Nat → Except Unit (List BNode × Nat)
  | [], _, acc, n => Except.ok (acc, n)
  | s :: rest, b, acc, n =>
    match runS s b acc n with
    | Except.error e => Except.error e
    | Except.ok (acc2, n2) => runList rest b acc2 n2
termination_by ss _ _ _ => sizeOf ss
decreasing_by all_goals (simp_wf <;> omega)

/-- The loop of `Builder.each`: for each generator item, run the body
once against a new builder that shares the creator's `Process` node, uses
the yielded dict (a fresh object, here a fresh reference) as its kwargs,
and resolves its description as `desc or description or
self.description`. -/
def runEach : Option String → List (Option String) → List Script → BuilderS → List BNode → Nat → Except Unit (List BNode × Nat)
  | _, [], _, _, acc, n => Except.ok (acc, n)
  | d, idesc :: items, body, b, acc, n =>
    match runList body
        ⟨b.procRef, b.procIdent, n, pyOr idesc (pyOr d b.descr)⟩
        acc (n + 1) with
    | Except.error e => Except.error e
    | Except.ok (acc2, n2) => runEach d items body b acc2 n2
termination_by _ items body _ _ _ => sizeOf items + sizeOf body
decreasing_by all_goals simp_wf
end

/-- `ProcessDefinition.build(identifier, ...)`: construct the root node
of the declared execution mode with the given identifier, run the
definition's construction body against a root builder positioned on it
(kwargs dict at reference 0, no description), and return the populated
root. -/
def build (mode : PKind) (ident : String) (scripts : List Script) :
    Except Unit BNode :=
  match runList scripts ⟨0, ident, 0, none⟩ [] 1 with
  | Except.error e => Except.error e
  | Except.ok (cs, _) => Except.ok (BNode.procC mode ident cs)

mutual
/-- Every process node in this tree, the root included, carries the
identifier `i`. -/
def nodeIdentOk (i : String) : BNode → Bool
  | BNode.stepC _ _ _ => true
  | BNode.procC _ i2 cs => (i2 == i) && nodesIdentOk i cs

/-- Every process node in this forest carries the identifier `i`. -/
def nodesIdentOk (i : String) : List BNode → Bool
  | [] => true
  | c :: cs => nodeIdentOk i c && nodesIdentOk i cs
end

mutual
/-- Every step in this tree stores the kwargs dict at reference `r`. -/
def nodeBagOk (r : Nat) : BNode → Bool
  | BNode.stepC _ _ br => br == r
  | BNode.procC _ _ cs => nodesBagOk r cs

/-- Every step in this forest stores the kwargs dict at reference `r`. -/
def nodesBagOk (r : Nat) : List BNode → Bool
  | [] => true
  | c :: cs => nodeBagOk r c && nodesBagOk r cs
end

mutual
/-- This call is none of `each` / `transform` and contains none in a
nested block: the only operations that replace a builder's kwargs dict. -/
def noReplaceS : Script → Bool
  | Script.taskS _ _ _ => true
  | Script.seqS _ body => noReplaceL body
  | Script.concS _ body => noReplaceL body
  | Script.subS _ _ body => noReplaceL body
  | Script.eachS _ _ _ => false
  | Script.transformS _ _ _ => false
  | Script.failS => true

/-- No call in this sequence is or contains an `each` / `transform`. -/
def noReplaceL : List Script → Bool
  | [] => true
  | s :: rest => noReplaceS s && noReplaceL rest
end

theorem nodesIdentOk_append (i : String) (a c : List BNode) :
    nodesIdentOk i (a ++ c) = (nodesIdentOk i a && nodesIdentOk i c) := by
  induction a with
  | nil => simp [nodesIdentOk]
  | cons x xs ih => simp [nodesIdentOk, ih, Bool.and_assoc]

theorem nodesBagOk_append (r : Nat) (a c : List BNode) :
    nodesBagOk r (a ++ c) = (nodesBagOk r a && nodesBagOk r c) := by
  induction a with
  | nil => simp [nodesBagOk]
  | cons x xs ih => simp [nodesBagOk, ih, Bool.and_assoc]

mutual
theorem runS_ident (s : Script) (b : BuilderS) (acc : List BNode) (n : Nat)
    (hacc : nodesIdentOk b.procIdent acc = true) (acc2 : List BNode)
    (n2 : Nat) (h : runS s b acc n = Except.ok (acc2, n2)) :
    nodesIdentOk b.procIdent acc2 = true := by
  cases s with
  | taskS f fa d =>
    simp only [runS, Except.ok.injEq, Prod.mk.injEq] at h
    obtain ⟨h1, _⟩ := h
    subst h1
    simp [task, nodesIdentOk_append, nodesIdentOk, nodeIdentOk, hacc]
  | seqS d body =>
    cases hr : runList body (mkChildBuilder b d n) [] (n + 1) with
    | error e => simp [runS, hr] at h
    | ok p =>
      obtain ⟨cs, n3⟩ := p
      simp only [runS, hr, Except.ok.injEq, Prod.mk.injEq] at h
      obtain ⟨h1, _⟩ := h
      subst h1
      have hcs : nodesIdentOk b.procIdent cs = true := by
        simpa [mkChildBuilder] using
          runList_ident body (mkChildBuilder b d n) [] (n + 1)
            (by simp [nodesIdentOk]) cs n3 hr
      simp [nodesIdentOk_append, nodesIdentOk, nodeIdentOk, hacc, hcs]
  | concS d body =>
    cases hr : runList body (mkChildBuilder b d n) [] (n + 1) with
    | error e => simp [runS, hr] at h
    | ok p =>
      obtain ⟨cs, n3⟩ := p
      simp only [runS, hr, Except.ok.injEq, Prod.mk.injEq] at h
      obtain ⟨h1, _⟩ := h
      subst h1
      have hcs : nodesIdentOk b.procIdent cs = true := by
        simpa [mkChildBuilder] using
          runList_ident body (mkChildBuilder b d n) [] (n + 1)
            (by simp [nodesIdentOk]) cs n3 hr
      simp [nodesIdentOk_append, nodesIdentOk, nodeIdentOk, hacc, hcs]
  | subS mode d body =>
    cases hr : runList body (mkChildBuilder b d n) [] (n + 1) with
    | error e => simp [runS, hr] at h
    | ok p =>
      obtain ⟨cs, n3⟩ := p
      simp only [runS, hr, Except.ok.injEq, Prod.mk.injEq] at h
      obtain ⟨h1, _⟩ := h
      subst h1
      have hcs : nodesIdentOk b.procIdent cs = true := by
        simpa [mkChildBuilder] using
          runList_ident body (mkChildBuilder b d n) [] (n + 1)
            (by simp [nodesIdentOk]) cs n3 hr
      simp [nodesIdentOk_append, nodesIdentOk, nodeIdentOk, hacc, hcs]
  | eachS d items body =>
    simp only [runS] at h
    exact runEach_ident d items body b acc n hacc acc2 n2 h
  | transformS nd d body =>
    simp only [runS] at h
    exact runList_ident body
      ⟨b.procRef, b.procIdent, n, pyOr nd (pyOr d b.descr)⟩ acc (n + 1)
      (by simpa using hacc) acc2 n2 h
  | failS => simp [runS] at h
termination_by sizeOf s

theorem runList_ident (ss : List Script) (b : BuilderS) (acc : List BNode)
    (n : Nat) (hacc : nodesIdentOk b.procIdent acc = true)
    (acc2 : List BNode) (n2 : Nat)
    (h : runList ss b acc n = Except.ok (acc2, n2)) :
    nodesIdentOk b.procIdent acc2 = true := by
  cases ss with
  | nil =>
    simp only [runList, Except.ok.injEq, Prod.mk.injEq] at h
    obtain ⟨h1, _⟩ := h
    subst h1
    exact hacc
  | cons s rest =>
    cases hr : runS s b acc n with
    | error e => simp [runList, hr] at h
    | ok p =>
      obtain ⟨acc3, n3⟩ := p
      simp only [runList, hr] at h
      exact runList_ident rest b acc3 n3
        (runS_ident s b acc n hacc acc3 n3 hr) acc2 n2 h
termination_by sizeOf ss

theorem runEach_ident (d : Option String) (items : List (Option String))
    (body : List Script) (b : BuilderS) (acc : List BNode) (n : Nat)
    (hacc : nodesIdentOk b.procIdent acc = true) (acc2 : List BNode)
    (n2 : Nat) (h : runEach d items body b acc n = Except.ok (acc2, n2)) :
    nodesIdentOk b.procIdent acc2 = true := by
  cases items with
  | nil =>
    simp only [runEach, Except.ok.injEq, Prod.mk.injEq] at h
    obtain ⟨h1, _⟩ := h
    subst h1
    exact hacc
  | cons idesc rest =>
    cases hr : runList body
        ⟨b.procRef, b.procIdent, n, pyOr idesc (pyOr d b.descr)⟩
        acc (n + 1) with
    | error e => simp [runEach, hr] at h
    | ok p =>
      obtain ⟨acc3, n3⟩ := p
      simp only [runEach, hr] at h
      have hacc3 : nodesIdentOk b.procIdent acc3 = true := by
        simpa using runList_ident body
          ⟨b.procRef, b.procIdent, n, pyOr idesc (pyOr d b.descr)⟩
          acc (n + 1) (by simpa using hacc) acc3 n3 hr
      exact runEach_ident d rest body b acc3 n3 hacc3 acc2 n2 h
termination_by sizeOf items + sizeOf body
end

/-- Claim C8: every process node in the tree produced by one `build()`
call carries the root's identifier — `sequential` / `concurrent` blocks
and `sub_process` nodes are always constructed with their parent node's
identifier, so no nested node ever gets a new identifier. -/
theorem claim8_shared_identifier (mode : PKind) (ident : String)
    (scripts : List Script) (t : BNode)
    (h : build mode ident scripts = Except.ok t) :
    nodeIdentOk ident t = true := by
  cases hr : runList scripts ⟨0, ident, 0, none⟩ [] 1 with
  | error e => simp [build, hr] at h
  | ok p =>
    obtain ⟨cs, n2⟩ := p
    simp only [build, hr, Except.ok.injEq] at h
    subst h
    have hcs : nodesIdentOk ident cs = true := by
      simpa using runList_ident scripts ⟨0, ident, 0, none⟩ [] 1
        (by simp [nodesIdentOk]) cs n2 hr
    simp [nodeIdentOk, hcs]

/-- Witness for claim C8: a build with a nested sequential block and a
concurrent sub-process yields a tree whose every process node carries the
root identifier. -/
theorem claim8_shared_identifier_witness :
    build PKind.sequential "pid"
        [Script.seqS none [Script.taskS "f" none none],
         Script.subS PKind.concurrent none []] =
      Except.ok (BNode.procC PKind.sequential "pid"
        [BNode.procC PKind.sequential "pid" [BNode.stepC "f" none 0],
         BNode.procC PKind.concurrent "pid" []]) ∧
    nodeIdentOk "pid" (BNode.procC PKind.sequential "pid"
        [BNode.procC PKind.sequential "pid" [BNode.stepC "f" none 0],
         BNode.procC PKind.concurrent "pid" []]) = true := by
  have h : build PKind.sequential "pid"
      [Script.seqS none [Script.taskS "f" none none],
       Script.subS PKind.concurrent none []] =
      Except.ok (BNode.procC PKind.sequential "pid"
        [BNode.procC PKind.sequential "pid" [BNode.stepC "f" none 0],
         BNode.procC PKind.concurrent "pid" []]) := by
    simp [build, runList, runS, task, mkChildBuilder, resolveDescription,
      pyOr, pyTruthy]
  exact ⟨h, claim8_shared_identifier _ _ _ _ h⟩

mutual
theorem runS_bag (s : Script) (b : BuilderS) (acc : List BNode) (n : Nat)
    (hnr : noReplaceS s = true) (hacc : nodesBagOk b.bagRef acc = true)
    (acc2 : List BNode) (n2 : Nat)
    (h : runS s b acc n = Except.ok (acc2, n2)) :
    nodesBagOk b.bagRef acc2 = true := by
  cases s with
  | taskS f fa d =>
    simp only [runS, Except.ok.injEq, Prod.mk.injEq] at h
    obtain ⟨h1, _⟩ := h
    subst h1
    simp [task, nodesBagOk_append, nodesBagOk, nodeBagOk, hacc]
  | seqS d body =>
    cases hr : runList body (mkChildBuilder b d n) [] (n + 1) with
    | error e => simp [runS, hr] at h
    | ok p =>
      obtain ⟨cs, n3⟩ := p
      simp only [runS, hr, Except.ok.injEq, Prod.mk.injEq] at h
      obtain ⟨h1, _⟩ := h
      subst h1
      have hcs : nodesBagOk b.bagRef cs = true := by
        simpa [mkChildBuilder] using
          runList_bag body (mkChildBuilder b d n) [] (n + 1)
            (by simpa [noReplaceS] using hnr) (by simp [nodesBagOk]) cs n3 hr
      simp [nodesBagOk_append, nodesBagOk, nodeBagOk, hacc, hcs]
  | concS d body =>
    cases hr : runList body (mkChildBuilder b d n) [] (n + 1) with
    | error e => simp [runS, hr] at h
    | ok p =>
      obtain ⟨cs, n3⟩ := p
      simp only [runS, hr, Except.ok.injEq, Prod.mk.injEq] at h
      obtain ⟨h1, _⟩ := h
      subst h1
      have hcs : nodesBagOk b.bagRef cs = true := by
        simpa [mkChildBuilder] using
          runList_bag body (mkChildBuilder b d n) [] (n + 1)
            (by simpa [noReplaceS] using hnr) (by simp [nodesBagOk]) cs n3 hr
      simp [nodesBagOk_append, nodesBagOk, nodeBagOk, hacc, hcs]
  | subS mode d body =>
    cases hr : runList body (mkChildBuilder b d n) [] (n + 1) with
    | error e => simp [runS, hr] at h
    | ok p =>
      obtain ⟨cs, n3⟩ := p
      simp only [runS, hr, Except.ok.injEq, Prod.mk.injEq] at h
      obtain ⟨h1, _⟩ := h
      subst h1
      have hcs : nodesBagOk b.bagRef cs = true := by
        simpa [mkChildBuilder] using
          runList_bag body (mkChildBuilder b d n) [] (n + 1)
            (by simpa [noReplaceS] using hnr) (by simp [nodesBagOk]) cs n3 hr
      simp [nodesBagOk_append, nodesBagOk, nodeBagOk, hacc, hcs]
  | eachS d items body => simp [noReplaceS] at hnr
  | transformS nd d body => simp [noReplaceS] at hnr
  | failS => simp [runS] at h
termination_by sizeOf s

theorem runList_bag (ss : List Script) (b : BuilderS) (acc : List BNode)
    (n : Nat) (hnr : noReplaceL ss = true)
    (hacc : nodesBagOk b.bagRef acc = true) (acc2 : List BNode) (n2 : Nat)
    (h : runList ss b acc n = Except.ok (acc2, n2)) :
    nodesBagOk b.bagRef acc2 = true := by
  cases ss with
  | nil =>
    simp only [runList, Except.ok.injEq, Prod.mk.injEq] at h
    obtain ⟨h1, _⟩ := h
    subst h1
    exact hacc
  | cons s rest =>
    simp only [noReplaceL, Bool.and_eq_true] at hnr
    cases hr : runS s b acc n with
    | error e => simp [runList, hr] at h
    | ok p =>
      obtain ⟨acc3, n3⟩ := p
      simp only [runList, hr] at h
      exact runList_bag rest b acc3 n3 hnr.2
        (runS_bag s b acc n hnr.1 hacc acc3 n3 hr) acc2 n2 h
termination_by sizeOf ss
end

/-- The heap of kwargs dict objects, keyed by reference. -/
abbrev Heap := List (Nat × Bag)

/-- An in-place mutation of the dict object at reference `r`. -/
def heap_write (h : Heap) (r : Nat) (bg : Bag) : Heap := (r, bg) :: h

/-- Reading the contents of the dict object at reference `r`. -/
def heap_read : Heap → Nat → Option Bag
  | [], _ => none
  | (k, v) :: rest, r => if k = r then some v else heap_read rest r

/-- Claim C10: `Builder.task` appends a step holding the builder's kwargs
dict itself — the same object reference, not a copy — and the child
builder created by `sequential` / `concurrent` / `sub_process` receives
the parent's dict reference uncopied; consequently every step registered
by a builder or by such child builders (in any construction run free of
the kwargs-replacing `each` / `transform`) stores one shared dict
reference, so mutating that one object is visible through every
previously registered step. -/
theorem claim10_steps_share_kwargs_object :
    (∀ (acc : List BNode) (b : BuilderS) (f : String)
        (fa : Option (Option String)) (d : Option String),
      task acc b f fa d =
        acc ++ [BNode.stepC f (resolveDescription d fa b.descr) b.bagRef]) ∧
    (∀ (b : BuilderS) (d : Option String) (k : Nat),
      (mkChildBuilder b d k).bagRef = b.bagRef) ∧
    (∀ (ss : List Script) (b : BuilderS) (n : Nat) (acc2 : List BNode)
        (n2 : Nat), noReplaceL ss = true →
      runList ss b [] n = Except.ok (acc2, n2) →
      nodesBagOk b.bagRef acc2 = true) ∧
    (∀ (h : Heap) (r : Nat) (bg : Bag),
      heap_read (heap_write h r bg) r = some bg) :=
  ⟨fun _ _ _ _ _ => rfl,
   fun _ _ _ => rfl,
   fun ss b n acc2 n2 hnr h =>
     runList_bag ss b [] n hnr (by simp [nodesBagOk]) acc2 n2 h,
   fun h r bg => by simp [heap_read, heap_write]⟩

/-- Witness for claim C10: a run registering one step directly and one
through a sequential block yields steps that all store the creating
builder's dict reference. -/
theorem claim10_steps_share_kwargs_object_witness :
    runList [Script.taskS "f" none none,
        Script.seqS none [Script.taskS "g" none none]]
        ⟨0, "p", 5, none⟩ [] 1 =
      Except.ok ([BNode.stepC "f" none 5,
        BNode.procC PKind.sequential "p" [BNode.stepC "g" none 5]], 2) ∧
    nodesBagOk 5 [BNode.stepC "f" none 5,
      BNode.procC PKind.sequential "p" [BNode.stepC "g" none 5]] = true := by
  have h : runList [Script.taskS "f" none none,
      Script.seqS none [Script.taskS "g" none none]]
      ⟨0, "p", 5, none⟩ [] 1 =
      Except.ok ([BNode.stepC "f" none 5,
        BNode.procC PKind.sequential "p" [BNode.stepC "g" none 5]], 2) := by
    simp [runList, runS, task, mkChildBuilder, resolveDescription,
      pyOr, pyTruthy]
  exact ⟨h, claim10_steps_share_kwargs_object.2.2.1 _ ⟨0, "p", 5, none⟩ _ _ _
    (by simp [noReplaceL, noReplaceS]) h⟩

end Tasktronaut
